import Mathlib

/-!
Shallow embedding of `src/index.ts` of madmaid/abemadl.

The repository downloads free episodes of tracked Abema programs, skipping
episodes recorded in a persisted completion log.  The source file contains two
historical variants of the pipeline; the second (current) variant defines
`downloadVideos` and a `crawl` with a dry-run flag, the first (older) variant
inlines the dedupe-download-merge step inside `crawl`.

Modelling choices:
* A JS object used as a string-keyed map (`Log`) is an association list
  `List (String × Recorded)`; `lookupLog` is property access, `updateLog` is
  `Object.assign(newLog, { [k]: v })` (replace the binding if present,
  otherwise add it).
* The external media-fetch capability (`streamlink` via `execSync`) is an
  oracle `ok : VOD → Bool`; `ok ep = false` means the subprocess throws.
  `download` returns its episode argument unchanged, so a successful download
  contributes exactly the episode's metadata to the log.
* Exceptions are `Except Unit`; `fs.writeFileSync` of the log is modelled by
  returning the new file contents, so a run maps the prior file contents to
  the posterior file contents plus a success flag.
* The scroll/measure pagination loop of `scrape` is modelled over the sequence
  `h : Nat → Nat` of measured page heights, with explicit fuel.
-/

structure Episode where
  videoURL : String
  subtitle : Option String
deriving Repr, DecidableEq

structure VOD where
  videoURL : String
  subtitle : Option String
  free : Bool
deriving Repr, DecidableEq

structure VODStatus where
  url : String
  title : String
  episodes : List VOD
deriving Repr, DecidableEq

structure Recorded where
  url : String
  title : String
  episodes : List Episode
deriving Repr, DecidableEq

/-- The runtime cast `program as Recorded` followed by `download`, which
returns the episode object; at the type level the `free` field is dropped. -/
def VOD.toEpisode (v : VOD) : Episode :=
  { videoURL := v.videoURL, subtitle := v.subtitle }

/-- `Log`: a JS object keyed by program URL, as an association list. -/
abbrev Log : Type := List (String × Recorded)

/-- Property access `log[url]`: first binding wins. -/
def lookupLog : Log → String → Option Recorded
  | [], _ => none
  | (k, v) :: rest, u => if k = u then some v else lookupLog rest u

/-- `Object.assign(newLog, { [url]: program })`: replace the binding for the
key if present, otherwise add a binding. -/
def updateLog : Log → String → Recorded → Log
  | [], u, r => [(u, r)]
  | (k, v) :: rest, u, r =>
      if k = u then (u, r) :: rest else (k, v) :: updateLog rest u r

/-- `logProgram != null ? logProgram.episodes : []` — the episodes of the
prior entry for a URL, empty when the URL has no entry. -/
def logEpisodes (log : Log) (u : String) : List Episode :=
  match lookupLog log u with
  | some r => r.episodes
  | none => []

/-- The videoURLs of the log entry for a URL. -/
def vids (log : Log) (u : String) : List String :=
  (logEpisodes log u).map Episode.videoURL

/-- The Dedup Engine: the filter inside `downloadVideos` (and, identically,
inside the older `crawl`):
`program.episodes.filter(fetchedEp => fetchedEp.free && logEps.every(logEp => fetchedEp.videoURL !== logEp.videoURL))`. -/
def dedupTargets (logEps : List Episode) (eps : List VOD) : List VOD :=
  eps.filter fun fetchedEp =>
    fetchedEp.free && logEps.all fun logEp => fetchedEp.videoURL != logEp.videoURL

/-- The `downloadTargets` map of `downloadVideos`: each scraped program with
its episodes restricted to the dedup targets. -/
def downloadTargets (log : Log) (programs : List VODStatus) : List VODStatus :=
  programs.map fun program =>
    { program with episodes := dedupTargets (logEpisodes log program.url) program.episodes }

/-- `program.episodes.map(ep => download(ep, program.title, recordedDir))`:
a synchronous in-order map in which the first failing `streamlink` invocation
throws and aborts the whole traversal. -/
def downloadEpisodes (ok : VOD → Bool) : List VOD → Except Unit (List Episode)
  | [] => .ok []
  | ep :: rest =>
      if ok ep then
        match downloadEpisodes ok rest with
        | .ok eps => .ok (ep.toEpisode :: eps)
        | .error e => .error e
      else .error ()

/-- The `downloadedLog` map: download every target episode of every program in
order, sequentially. On success each program becomes a `Recorded` carrying its
downloaded episodes. -/
def downloadAll (ok : VOD → Bool) : List VODStatus → Except Unit (List Recorded)
  | [] => .ok []
  | program :: rest =>
      match downloadEpisodes ok program.episodes with
      | .error e => .error e
      | .ok eps =>
          match downloadAll ok rest with
          | .error e => .error e
          | .ok rest' =>
              .ok ({ url := program.url, title := program.title, episodes := eps } :: rest')

/-- The `forEach` append-a-log loop of `downloadVideos` (current variant):
`alreadyDownloaded = newLog[program.url]?.episodes || []`, then the program,
with prior episodes prepended, replaces the entry. -/
def mergeLog : Log → List Recorded → Log
  | log, [] => log
  | log, program :: rest =>
      let alreadyDownloaded := logEpisodes log program.url
      mergeLog
        (updateLog log program.url
          { url := program.url, title := program.title
            episodes := alreadyDownloaded ++ program.episodes })
        rest

/-- The `forEach` append-a-log loop of the older `crawl` variant:
`alreadyDownloaded = newLog[program.url].episodes || []` — property access on
`undefined` throws a `TypeError` when the program URL has no entry (`none`
models the thrown error). A non-empty `episodes` array is always truthy in JS,
and so is `[]`, hence the entry's episode list is used as-is when the entry
exists. -/
def mergeLogOld : Log → List Recorded → Option Log
  | log, [] => some log
  | log, program :: rest =>
      match lookupLog log program.url with
      | none => none
      | some r =>
          mergeLogOld
            (updateLog log program.url
              { url := program.url, title := program.title
                episodes := r.episodes ++ program.episodes })
            rest

/-- `downloadVideos(programs, rawRecordedDir)` as a transformer of the
persisted log file: reads the file contents, computes targets, downloads
sequentially, and only on success merges and rewrites the file
(`fs.writeFileSync` is the last statement). The boolean is `true` exactly
when no exception escaped; on an exception the file is untouched and `crawl`
exits the process with status 1. -/
def downloadVideosRun (ok : VOD → Bool) (fileLog : Log) (programs : List VODStatus) :
    Log × Bool :=
  match downloadAll ok (downloadTargets fileLog programs) with
  | .error _ => (fileLog, false)
  | .ok recs => (mergeLog fileLog recs, true)

/-- The dedupe-download-merge step of the older `crawl` variant (lines using
`newLog[program.url].episodes` without optional chaining), as a transformer of
the persisted log file. -/
def downloadVideosRunOld (ok : VOD → Bool) (fileLog : Log) (programs : List VODStatus) :
    Log × Bool :=
  match downloadAll ok (downloadTargets fileLog programs) with
  | .error _ => (fileLog, false)
  | .ok recs =>
      match mergeLogOld fileLog recs with
      | none => (fileLog, false)
      | some l => (l, true)

/-- The tail of the current `crawl`:
`dryrun ? console.log(programs.map(p => p.episodes)) : downloadVideos(programs, recordedDir)`.
Result: final log file contents, success flag, and what dry-run printed
(`none` when not in dry-run mode). -/
def crawlRun (ok : VOD → Bool) (dryrun : Bool) (fileLog : Log) (programs : List VODStatus) :
    Log × Bool × Option (List (List VOD)) :=
  if dryrun then
    (fileLog, true, some (programs.map VODStatus.episodes))
  else
    let (l, b) := downloadVideosRun ok fileLog programs
    (l, b, none)

/-- `add(URL, jsonpath)`: `const _new = [URL].concat(old)` written back. -/
def add (URL : String) (old : List String) : List String :=
  [URL] ++ old

/-- The record a target program contributes to the merge on success. -/
def targetRec (log : Log) (p : VODStatus) : Recorded :=
  { url := p.url, title := p.title,
    episodes := (dedupTargets (logEpisodes log p.url) p.episodes).map VOD.toEpisode }

/-- One episode node of the listing, as the scraper reads it: the `href` of
`a.com-a-Link` (absent when the node has no video link), the text of the
subtitle span, and the text of the `com-vod-VODLabel` span. -/
structure EpisodeNode where
  link : Option String
  subtitleText : Option String
  labelText : Option String
deriving Repr, DecidableEq

/-- Extraction of one episode inside `scrape`:
`if (videoURL === null) return Promise.reject(new Error("No URL"));` and then
`free: free === "無料"`. -/
def extractEpisode (node : EpisodeNode) : Except String VOD :=
  match node.link with
  | none => .error "No URL"
  | some u =>
      .ok { videoURL := u, subtitle := node.subtitleText
            free := node.labelText == some "無料" }

/-- `Promise.all(episodeEHs.map(...))`: a single rejected episode rejects the
whole list, so either every node yields an episode or the scrape of the whole
program fails. -/
def extractEpisodes : List EpisodeNode → Except String (List VOD)
  | [] => .ok []
  | node :: rest =>
      match extractEpisode node with
      | .error e => .error e
      | .ok v =>
          match extractEpisodes rest with
          | .error e => .error e
          | .ok vs => .ok (v :: vs)

/-- The scroll-to-the-bottom loop of `scrape`, over the sequence
`h : Nat → Nat` of measured `document.body.scrollHeight` values (`h i` is the
measurement of cycle `i`):
`let lastHeight = 0; let bottom = 0; do { lastHeight = bottom; bottom = measure(); } while (lastHeight < bottom)`.
`fuel` bounds the number of cycles the model runs; the JS loop has no such
bound. Returns the index of the cycle on which the loop exits, or `none` if
the fuel ran out first. The `last` argument carries `lastHeight`, i.e. the
measurement of the previous cycle (`0` before the first cycle). -/
def scrollLoop (h : Nat → Nat) : Nat → Nat → Nat → Option Nat
  | 0, _, _ => none
  | fuel + 1, i, last =>
      let bottom := h i
      if last < bottom then scrollLoop h fuel (i + 1) bottom else some i

/-- The height the loop compares the cycle-`i` measurement against: the
previous cycle's measurement, `0` before the first cycle. -/
def prevHeight (h : Nat → Nat) : Nat → Nat
  | 0 => 0
  | i + 1 => h i

/-! ### Sample inputs used by the concrete witnesses and counterexamples -/

/-- A sample free scraped episode with videoURL `"v"`. -/
def sampleVOD : VOD :=
  { videoURL := "v", subtitle := none, free := true }

/-- A sample scraped program at URL `"u"` carrying `sampleVOD`. -/
def sampleProgram : VODStatus :=
  { url := "u", title := "t", episodes := [sampleVOD] }

/-- The log entry recorded for `sampleProgram` after a run from an empty log. -/
def sampleRecorded : Recorded :=
  { url := "u", title := "t", episodes := [{ videoURL := "v", subtitle := none }] }

/-- A sample scraped program with two new free episodes. -/
def sampleProgram2 : VODStatus :=
  { url := "u", title := "t",
    episodes := [{ videoURL := "v1", subtitle := none, free := true },
      { videoURL := "v2", subtitle := none, free := true }] }

/-- The merged entry produced by `sampleProgram2` from an empty log. -/
def sampleRecorded2 : Recorded :=
  { url := "u", title := "t",
    episodes := [{ videoURL := "v1", subtitle := none },
      { videoURL := "v2", subtitle := none }] }

/-- A sample scraped program whose only episode is paid. -/
def samplePaidProgram : VODStatus :=
  { url := "u", title := "t",
    episodes := [{ videoURL := "v", subtitle := none, free := false }] }

/-- A sample prior log: URL `"u"` already has `"v"` recorded under the title
`"t0"`. -/
def sampleLog : Log :=
  [("u", { url := "u", title := "t0", episodes := [{ videoURL := "v", subtitle := none }] })]

/-- A sample scraped listing repeating the same videoURL twice, both free. -/
def sampleDupProgram : VODStatus :=
  { url := "u", title := "t",
    episodes := [{ videoURL := "v", subtitle := none, free := true },
      { videoURL := "v", subtitle := none, free := true }] }

/-- The merged entry that `sampleDupProgram` produces from an empty log:
`"v"` is recorded twice. -/
def sampleDupRecorded : Recorded :=
  { url := "u", title := "t",
    episodes := [{ videoURL := "v", subtitle := none },
      { videoURL := "v", subtitle := none }] }

/-! ### Lookup/update lemmas for the association-list model of JS objects -/

theorem lookupLog_updateLog_self (log : Log) (u : String) (r : Recorded) :
    lookupLog (updateLog log u r) u = some r := by
  induction log with
  | nil => simp [updateLog, lookupLog]
  | cons kv rest ih =>
      obtain ⟨k, v⟩ := kv
      by_cases hk : k = u
      · simp [updateLog, lookupLog, hk]
      · simp [updateLog, lookupLog, hk, ih]

theorem lookupLog_updateLog_ne (log : Log) (u u' : String) (r : Recorded)
    (h : u ≠ u') : lookupLog (updateLog log u r) u' = lookupLog log u' := by
  induction log with
  | nil => simp [updateLog, lookupLog, h]
  | cons kv rest ih =>
      obtain ⟨k, v⟩ := kv
      by_cases hk : k = u
      · subst hk
        simp [updateLog, lookupLog, h]
      · by_cases hk' : k = u'
        · simp [updateLog, lookupLog, hk, hk', Ne.symm h]
        · simp [updateLog, lookupLog, hk, hk', ih]

theorem logEpisodes_updateLog_self (log : Log) (u : String) (r : Recorded) :
    logEpisodes (updateLog log u r) u = r.episodes := by
  simp [logEpisodes, lookupLog_updateLog_self]

theorem logEpisodes_updateLog_ne (log : Log) (u u' : String) (r : Recorded)
    (h : u ≠ u') : logEpisodes (updateLog log u r) u' = logEpisodes log u' := by
  simp [logEpisodes, lookupLog_updateLog_ne log u u' r h]

/-! ### The merge loop -/

/-- The videoURLs of an entry produced by the merge: prior episodes of the
log, then, in order, the episodes of every merged program with that URL. -/
theorem logEpisodes_mergeLog (recs : List Recorded) (log : Log) (u : String) :
    logEpisodes (mergeLog log recs) u =
      logEpisodes log u ++
        (recs.filter fun r => r.url == u).flatMap Recorded.episodes := by
  induction recs generalizing log with
  | nil => simp [mergeLog]
  | cons p rest ih =>
      by_cases hu : p.url = u
      · subst hu
        simp [mergeLog, ih, List.filter_cons, logEpisodes_updateLog_self]
      · simp [mergeLog, ih, List.filter_cons, hu,
          logEpisodes_updateLog_ne _ _ _ _ hu]

/-! ### The sequential download traversal -/

theorem downloadEpisodes_ok (ok : VOD → Bool) (l : List VOD) (eps : List Episode)
    (h : downloadEpisodes ok l = .ok eps) :
    eps = l.map VOD.toEpisode := by
  induction l generalizing eps with
  | nil =>
      simp only [downloadEpisodes, Except.ok.injEq] at h
      simp [← h]
  | cons a l ih =>
      by_cases ha : ok a
      · simp only [downloadEpisodes, ha, if_true] at h
        cases he : downloadEpisodes ok l with
        | error e => rw [he] at h; cases h
        | ok rest =>
            rw [he] at h
            simp only [Except.ok.injEq] at h
            simp [← h, ih rest he]
      · simp [downloadEpisodes, ha] at h

theorem downloadEpisodes_error (ok : VOD → Bool) (l : List VOD)
    (h : ∃ ep ∈ l, ok ep = false) :
    downloadEpisodes ok l = .error () := by
  induction l with
  | nil => simp at h
  | cons a l ih =>
      obtain ⟨ep, hmem, hfail⟩ := h
      rcases List.mem_cons.mp hmem with rfl | hmem'
      · simp [downloadEpisodes, hfail]
      · rw [downloadEpisodes]
        by_cases ha : ok a
        · rw [if_pos ha, ih ⟨ep, hmem', hfail⟩]
        · rw [if_neg ha]

/-- When the whole traversal succeeds, every target program becomes the
`Recorded` with exactly its target episodes. -/
theorem downloadAll_ok (ok : VOD → Bool) (ps : List VODStatus) (recs : List Recorded)
    (h : downloadAll ok ps = .ok recs) :
    recs = ps.map fun p =>
      { url := p.url, title := p.title, episodes := p.episodes.map VOD.toEpisode } := by
  induction ps generalizing recs with
  | nil =>
      simp only [downloadAll, Except.ok.injEq] at h
      simp [← h]
  | cons p rest ih =>
      rw [downloadAll] at h
      cases he : downloadEpisodes ok p.episodes with
      | error e => rw [he] at h; cases h
      | ok eps =>
          rw [he] at h
          cases hr : downloadAll ok rest with
          | error e => rw [hr] at h; cases h
          | ok rest' =>
              rw [hr] at h
              simp only [Except.ok.injEq] at h
              rw [← h, ih rest' hr, downloadEpisodes_ok ok p.episodes eps he]
              simp

/-- A single failing download aborts the whole traversal. -/
theorem downloadAll_error (ok : VOD → Bool) (ps : List VODStatus)
    (h : ∃ p ∈ ps, ∃ ep ∈ p.episodes, ok ep = false) :
    downloadAll ok ps = .error () := by
  induction ps with
  | nil => simp at h
  | cons p rest ih =>
      obtain ⟨q, hq, ep, hep, hfail⟩ := h
      rcases List.mem_cons.mp hq with rfl | hq'
      · rw [downloadAll, downloadEpisodes_error ok q.episodes ⟨ep, hep, hfail⟩]
      · rw [downloadAll]
        cases he : downloadEpisodes ok p.episodes with
        | error e => cases e; rfl
        | ok eps => rw [ih ⟨q, hq', ep, hep, hfail⟩]

/-- Entries for URLs no merged program carries are untouched by the merge. -/
theorem lookupLog_mergeLog_of_not_mem (recs : List Recorded) (log : Log) (u : String)
    (h : ∀ r ∈ recs, r.url ≠ u) :
    lookupLog (mergeLog log recs) u = lookupLog log u := by
  induction recs generalizing log with
  | nil => simp [mergeLog]
  | cons p rest ih =>
      have hp : p.url ≠ u := h p (by simp)
      rw [mergeLog, ih _ fun r hr => h r (by simp [hr]),
        lookupLog_updateLog_ne _ _ _ _ hp]

/-! ### Dedup Engine lemmas -/

/-- A videoURL appears among the targets iff some scraped episode carries it,
is free, and the URL is absent from the prior entry's videoURLs. -/
theorem mem_vids_dedupTargets (logEps : List Episode) (eps : List VOD) (v : String) :
    v ∈ (dedupTargets logEps eps).map VOD.videoURL ↔
      ∃ ep ∈ eps, ep.free = true ∧ ep.videoURL = v ∧
        v ∉ logEps.map Episode.videoURL := by
  simp only [dedupTargets, List.mem_map, List.mem_filter, Bool.and_eq_true,
    List.all_eq_true, bne_iff_ne, ne_eq, List.mem_map, not_exists, not_and]
  constructor
  · rintro ⟨ep, ⟨hmem, hfree, hall⟩, rfl⟩
    exact ⟨ep, hmem, hfree, rfl, fun le hle => Ne.symm (hall le hle)⟩
  · rintro ⟨ep, hmem, hfree, rfl, hnone⟩
    exact ⟨ep, ⟨hmem, hfree, fun le hle h => hnone le hle h.symm⟩, rfl⟩

/-- Helper for unpacking a successful run: the posterior log is the merge of
the prior log with the per-program target records. -/
theorem downloadVideosRun_ok (ok : VOD → Bool) (log newLog : Log)
    (programs : List VODStatus)
    (h : downloadVideosRun ok log programs = (newLog, true)) :
    newLog = mergeLog log
      ((downloadTargets log programs).map fun p =>
        { url := p.url, title := p.title, episodes := p.episodes.map VOD.toEpisode }) := by
  unfold downloadVideosRun at h
  cases hd : downloadAll ok (downloadTargets log programs) with
  | error e =>
      rw [hd] at h
      exact absurd (congrArg Prod.snd h) (by simp)
  | ok recs =>
      rw [hd] at h
      have h' : (mergeLog log recs, true) = (newLog, true) := h
      injection h' with h1 h2
      rw [← h1, downloadAll_ok ok _ recs hd]

/-- Claim C1: after a successful run, a videoURL is in the entry for a program URL
iff it was there before, or it was scraped free for that URL and was not there
before. -/
theorem run_membership (ok : VOD → Bool) (log newLog : Log)
    (programs : List VODStatus) (u v : String)
    (h : downloadVideosRun ok log programs = (newLog, true)) :
    v ∈ vids newLog u ↔
      v ∈ vids log u ∨
        ((∃ p ∈ programs, p.url = u ∧
            ∃ ep ∈ p.episodes, ep.free = true ∧ ep.videoURL = v) ∧
          v ∉ vids log u) := by
  rw [downloadVideosRun_ok ok log newLog programs h]
  unfold vids
  rw [logEpisodes_mergeLog, downloadTargets, List.map_map]
  simp only [List.map_append, List.mem_append, List.mem_map, List.mem_flatMap,
    List.mem_filter, Function.comp]
  constructor
  · rintro (hprior | ⟨e, ⟨r, ⟨⟨q, hq, rfl⟩, hurl⟩, he⟩, rfl⟩)
    · exact Or.inl hprior
    · simp only [beq_iff_eq] at hurl
      obtain ⟨ep, hep, rfl⟩ := List.mem_map.mp he
      have : ep.videoURL ∈ (dedupTargets (logEpisodes log q.url) q.episodes).map VOD.videoURL :=
        List.mem_map.mpr ⟨ep, hep, rfl⟩
      rw [mem_vids_dedupTargets] at this
      obtain ⟨ep', hmem', hfree', hv', hnot'⟩ := this
      subst hurl
      refine Or.inr ⟨⟨q, hq, rfl, ep', hmem', hfree', hv'⟩, ?_⟩
      simpa [VOD.toEpisode] using hnot'
  · rintro (hprior | ⟨⟨q, hq, rfl, ep, hep, hfree, rfl⟩, hnot⟩)
    · exact Or.inl hprior
    · refine Or.inr ?_
      have : ep.videoURL ∈ (dedupTargets (logEpisodes log q.url) q.episodes).map VOD.videoURL := by
        rw [mem_vids_dedupTargets]
        exact ⟨ep, hep, hfree, rfl, by simpa using hnot⟩
      obtain ⟨ep', hmem', hv'⟩ := List.mem_map.mp this
      refine ⟨ep'.toEpisode,
        ⟨{ url := q.url, title := q.title,
           episodes := (dedupTargets (logEpisodes log q.url) q.episodes).map VOD.toEpisode },
          ⟨⟨q, hq, rfl⟩, by simp⟩, List.mem_map.mpr ⟨ep', hmem', rfl⟩⟩, hv'⟩

/-- Witness for `run_membership`: one free episode `"v"` scraped for `"u"`
against an empty prior log; the merged entry contains `"v"`. -/
theorem run_membership_witness :
    "v" ∈ vids [("u", sampleRecorded)] "u" ↔
      "v" ∈ vids ([] : Log) "u" ∨
        ((∃ p ∈ [sampleProgram], p.url = "u" ∧
            ∃ ep ∈ p.episodes, ep.free = true ∧ ep.videoURL = "v") ∧
          "v" ∉ vids ([] : Log) "u") :=
  run_membership (fun _ => true) [] [("u", sampleRecorded)] [sampleProgram] "u" "v"
    (by decide)

/-! ### C9: the URL Store add operation -/

/-- Claim C9: `add` produces a store whose first element is the new URL and whose
remaining elements are exactly the prior contents in their original order. -/
theorem add_prepends (URL : String) (old : List String) :
    (add URL old).head? = some URL ∧ (add URL old).tail = old := by
  constructor <;> rfl

/-! ### C5: the Dedup Engine -/

theorem all_bne_eq_not_contains (v : String) (l : List Episode) :
    (l.all fun le => v != le.videoURL) = !((l.map Episode.videoURL).contains v) := by
  induction l with
  | nil => rfl
  | cons a l ih =>
      rw [List.all_cons, List.map_cons, List.contains_cons, Bool.not_or, ← ih]
      rfl

/-- The Dedup Engine's filter condition, rephrased: free and the videoURL is
not an element of the prior entry's videoURLs. -/
theorem dedupTargets_eq_filter_not_contains (logEps : List Episode) (eps : List VOD) :
    dedupTargets logEps eps =
      eps.filter fun ep =>
        ep.free && !((logEps.map Episode.videoURL).contains ep.videoURL) := by
  unfold dedupTargets
  refine List.filter_congr fun ep _ => ?_
  rw [← all_bne_eq_not_contains]

/-- Claim C5: the target set is exactly the free scraped episodes whose videoURL is
absent from the prior entry, as an in-order filter of the scraped listing; the
subtitles (and any other field) of the prior entry play no role — only its
videoURLs do. -/
theorem dedupTargets_spec (logEps logEps' : List Episode) (eps : List VOD)
    (h : logEps.map Episode.videoURL = logEps'.map Episode.videoURL) :
    dedupTargets logEps eps =
      (eps.filter fun ep =>
        ep.free && !((logEps.map Episode.videoURL).contains ep.videoURL)) ∧
    dedupTargets logEps eps = dedupTargets logEps' eps := by
  refine ⟨dedupTargets_eq_filter_not_contains logEps eps, ?_⟩
  rw [dedupTargets_eq_filter_not_contains, dedupTargets_eq_filter_not_contains, h]

/-- Witness for `dedupTargets_spec`: two prior entries with the same videoURL
`"v"` but different subtitles select the same targets from a three-episode
listing (one already recorded, one new and free, one new but paid). -/
theorem dedupTargets_spec_witness :
    dedupTargets [{ videoURL := "v", subtitle := some "s" }]
        [{ videoURL := "v", subtitle := none, free := true },
          { videoURL := "w", subtitle := none, free := true },
          { videoURL := "x", subtitle := none, free := false }] =
      ([{ videoURL := "v", subtitle := none, free := true },
          { videoURL := "w", subtitle := none, free := true },
          { videoURL := "x", subtitle := none, free := false }].filter fun ep =>
        ep.free && !(([{ videoURL := "v", subtitle := some "s" }].map
            Episode.videoURL).contains ep.videoURL)) ∧
    dedupTargets [{ videoURL := "v", subtitle := some "s" }]
        [{ videoURL := "v", subtitle := none, free := true },
          { videoURL := "w", subtitle := none, free := true },
          { videoURL := "x", subtitle := none, free := false }] =
      dedupTargets [{ videoURL := "v", subtitle := none }]
        [{ videoURL := "v", subtitle := none, free := true },
          { videoURL := "w", subtitle := none, free := true },
          { videoURL := "x", subtitle := none, free := false }] :=
  dedupTargets_spec [{ videoURL := "v", subtitle := some "s" }]
    [{ videoURL := "v", subtitle := none }] _ (by decide)

/-! ### C8: a missing video link fails the whole program scrape -/

/-- Claim C8: if any episode node of the listing lacks a video link, the extraction
of the whole episode list fails with the `"No URL"` error — no partial episode
list is produced. -/
theorem extractEpisodes_error_of_missing_link (nodes : List EpisodeNode)
    (h : ∃ node ∈ nodes, node.link = none) :
    extractEpisodes nodes = .error "No URL" := by
  induction nodes with
  | nil => simp at h
  | cons node rest ih =>
      obtain ⟨bad, hmem, hlink⟩ := h
      rcases List.mem_cons.mp hmem with rfl | hmem'
      · rw [extractEpisodes]
        simp [extractEpisode, hlink]
      · rw [extractEpisodes]
        cases he : extractEpisode node with
        | error e =>
            unfold extractEpisode at he
            cases hl : node.link with
            | none => rw [hl] at he; cases he; rfl
            | some u => rw [hl] at he; cases he
        | ok v => rw [ih ⟨bad, hmem', hlink⟩]

/-- Witness for `extractEpisodes_error_of_missing_link`: the second of two
nodes lacks its video link. -/
theorem extractEpisodes_error_witness :
    extractEpisodes
        [{ link := some "v", subtitleText := some "s", labelText := some "無料" },
          { link := none, subtitleText := some "s2", labelText := some "無料" }] =
      .error "No URL" :=
  extractEpisodes_error_of_missing_link _ (by decide)

/-! ### C7: the scroll-and-measure pagination loop -/

/-- Entered at cycle `i` with `lastHeight` equal to the previous measurement,
the loop exits exactly on the first cycle at which the new measurement does
not exceed the previous one, provided enough fuel to reach it. -/
theorem scrollLoop_exits_first (h : Nat → Nat) (fuel i j : Nat)
    (hij : i ≤ j) (hj : j < i + fuel)
    (hstop : h j ≤ prevHeight h j)
    (hrun : ∀ k, i ≤ k → k < j → prevHeight h k < h k) :
    scrollLoop h fuel i (prevHeight h i) = some j := by
  induction fuel generalizing i with
  | zero => omega
  | succ fuel ih =>
      by_cases hcase : i = j
      · subst hcase
        simp only [scrollLoop]
        rw [if_neg (not_lt.mpr hstop)]
      · have hlt : i < j := lt_of_le_of_ne hij hcase
        simp only [scrollLoop]
        rw [if_pos (hrun i le_rfl hlt)]
        have heq : h i = prevHeight h (i + 1) := rfl
        rw [heq]
        exact ih (i + 1) hlt (by omega) fun k hk1 hk2 => hrun k (by omega) hk2

/-- Claim C7: over any measured-height sequence that is eventually stable, the
scroll loop terminates (any fuel beyond the exit cycle yields the same exit),
and it exits on the first cycle at which the newly measured height does not
exceed the previously measured height. -/
theorem scrollLoop_terminates (h : Nat → Nat) (N v : Nat)
    (hs : ∀ n, N ≤ n → h n = v) :
    ∃ j, (∀ fuel, j < fuel → scrollLoop h fuel 0 0 = some j) ∧
      h j ≤ prevHeight h j ∧ ∀ k < j, prevHeight h k < h k := by
  have hex : ∃ j, h j ≤ prevHeight h j := by
    by_contra hc
    push_neg at hc
    have hmono : ∀ k, k + 1 ≤ h k := by
      intro k
      induction k with
      | zero => simpa [prevHeight] using hc 0
      | succ k ih =>
          have hk := hc (k + 1)
          simp only [prevHeight] at hk
          omega
    have h1 := hmono (N + v)
    have h2 := hs (N + v) (by omega)
    omega
  refine ⟨Nat.find hex, fun fuel hfuel => ?_, Nat.find_spec hex,
    fun k hk => not_le.mp (Nat.find_min hex hk)⟩
  have h0 : prevHeight h 0 = 0 := rfl
  rw [← h0]
  exact scrollLoop_exits_first h fuel 0 (Nat.find hex) (Nat.zero_le _) (by omega)
    (Nat.find_spec hex) fun k _ hkj => not_le.mp (Nat.find_min hex hkj)

/-- Witness for `scrollLoop_terminates`: the constant height sequence `5`
stabilizes immediately; the loop exits after its second cycle. -/
theorem scrollLoop_terminates_witness :
    ∃ j, (∀ fuel, j < fuel → scrollLoop (fun _ => 5) fuel 0 0 = some j) ∧
      (fun _ => 5) j ≤ prevHeight (fun _ => 5) j ∧
      ∀ k < j, prevHeight (fun _ => 5) k < (fun _ => 5) k :=
  scrollLoop_terminates (fun _ => 5) 0 5 fun _ _ => rfl

/-! ### C6: a failed download aborts the run with the log file untouched -/

/-- Claim C6: if the media-fetch capability fails on any target episode, the run
aborts — `crawl` exits with status 1, modelled by the `false` flag — and the
persisted log file is exactly its pre-run contents: the write only happens
after every download succeeded. -/
theorem run_aborts_log_unchanged (ok : VOD → Bool) (log : Log)
    (programs : List VODStatus)
    (h : ∃ p ∈ downloadTargets log programs, ∃ ep ∈ p.episodes, ok ep = false) :
    crawlRun ok false log programs = (log, false, none) := by
  unfold crawlRun downloadVideosRun
  rw [downloadAll_error ok _ h]
  rfl

/-- Witness for `run_aborts_log_unchanged`: the downloader fails on the second
of two targets; the log stays empty and the run reports failure. -/
theorem run_aborts_log_unchanged_witness :
    crawlRun (fun ep => ep.videoURL == "v1") false [] [sampleProgram2] =
      ([], false, none) :=
  run_aborts_log_unchanged (fun ep => ep.videoURL == "v1") [] [sampleProgram2]
    (by decide)

/-! ### C2: what dry-run reports -/

/-- Counterexample to C2 as stated: for a program whose only episode is paid,
dry-run reports that episode, while a non-dry run would select no targets —
the dry-run output is the raw scraped listing, not the Dedup Engine's output. -/
theorem dryrun_report_ne_targets :
    (crawlRun (fun _ => true) true [] [samplePaidProgram]).2.2 ≠
      some ((downloadTargets [] [samplePaidProgram]).map VODStatus.episodes) := by
  decide

/-- Claim C2, amended: dry-run performs no downloading and no log persistence, but
what it emits is the full scraped episode list of every program
(`programs.map(p => p.episodes)`), not the computed target list. -/
theorem dryrun_reports_scraped (ok : VOD → Bool) (log : Log)
    (programs : List VODStatus) :
    crawlRun ok true log programs =
      (log, true, some (programs.map VODStatus.episodes)) := rfl

/-! ### C3: which entries the merge touches -/

theorem flatMap_episodes_eq_nil (l : List Recorded)
    (h : ∀ r ∈ l, r.episodes = []) :
    l.flatMap Recorded.episodes = [] := by
  induction l with
  | nil => rfl
  | cons a l ih =>
      rw [List.flatMap_cons, h a (by simp), ih fun r hr => h r (by simp [hr])]
      rfl

/-- Counterexample to C3 as stated: a scraped program with an empty target set
(here: its only episode is paid) still has its log entry replaced — the key is
created even though nothing was downloaded, so presence/absence of the key is
not preserved. -/
theorem merge_creates_entry_counterexample :
    downloadVideosRun (fun _ => true) [] [samplePaidProgram] =
      ([("u", { url := "u", title := "t", episodes := [] })], true) ∧
    lookupLog [] "u" = none := by
  decide

/-- Claim C3, amended: after a successful run, entries of URLs that were not scraped
at all are untouched, and a scraped program whose computed target set is empty
keeps its episode list unchanged — but its entry is still replaced (key
created if absent, title set to the scraped title). -/
theorem merge_frame_amended (ok : VOD → Bool) (log newLog : Log)
    (programs : List VODStatus) (u : String)
    (h : downloadVideosRun ok log programs = (newLog, true)) :
    ((∀ p ∈ programs, p.url ≠ u) → lookupLog newLog u = lookupLog log u) ∧
    ((∀ p ∈ programs, p.url = u →
        dedupTargets (logEpisodes log u) p.episodes = []) →
      logEpisodes newLog u = logEpisodes log u) := by
  rw [downloadVideosRun_ok ok log newLog programs h, downloadTargets, List.map_map]
  constructor
  · intro hu
    apply lookupLog_mergeLog_of_not_mem
    intro r hr
    obtain ⟨q, hq, rfl⟩ := List.mem_map.mp hr
    exact hu q hq
  · intro hempty
    rw [logEpisodes_mergeLog]
    rw [flatMap_episodes_eq_nil, List.append_nil]
    intro r hr
    obtain ⟨hmem, hurl⟩ := List.mem_filter.mp hr
    obtain ⟨q, hq, rfl⟩ := List.mem_map.mp hmem
    simp only [Function.comp, beq_iff_eq] at hurl
    have := hempty q hq hurl
    simp only [Function.comp]
    rw [hurl, this]
    rfl

/-- Witness for `merge_frame_amended`: scraping `"u"` again when its only free
episode is already recorded leaves the episode list unchanged (the entry's
title is nevertheless rewritten to `"t"`). -/
theorem merge_frame_amended_witness :
    ((∀ p ∈ [sampleProgram], p.url ≠ "u") →
      lookupLog [("u", sampleRecorded)] "u" = lookupLog sampleLog "u") ∧
    ((∀ p ∈ [sampleProgram], p.url = "u" →
        dedupTargets (logEpisodes sampleLog "u") p.episodes = []) →
      logEpisodes [("u", sampleRecorded)] "u" = logEpisodes sampleLog "u") :=
  merge_frame_amended (fun _ => true) sampleLog [("u", sampleRecorded)]
    [sampleProgram] "u" (by decide)

/-! ### C4: duplicate videoURLs in merged entries -/

/-- On a successful run the posterior log is the merge of the per-program
target records. -/
theorem downloadVideosRun_ok_targetRec (ok : VOD → Bool) (log newLog : Log)
    (programs : List VODStatus)
    (h : downloadVideosRun ok log programs = (newLog, true)) :
    newLog = mergeLog log (programs.map (targetRec log)) := by
  rw [downloadVideosRun_ok ok log newLog programs h, downloadTargets, List.map_map]
  rfl

/-- Counterexample to C4 as stated: a scraped listing that repeats a free
videoURL produces a merged entry whose episode list contains that videoURL
twice — the Dedup Engine compares only against the prior log entry, not
within the scraped listing. -/
theorem merge_duplicate_counterexample :
    downloadVideosRun (fun _ => true) [] [sampleDupProgram] =
      ([("u", sampleDupRecorded)], true) ∧
    ¬ (vids [("u", sampleDupRecorded)] "u").Nodup := by
  decide

/-- With pairwise distinct program URLs, the filter to one URL keeps at most
one program. -/
theorem filter_url_eq_nil_or_singleton (programs : List VODStatus) (u : String)
    (hurls : (programs.map VODStatus.url).Nodup) :
    programs.filter (fun p => p.url == u) = [] ∨
      ∃ q ∈ programs, q.url = u ∧ programs.filter (fun p => p.url == u) = [q] := by
  induction programs with
  | nil => exact Or.inl rfl
  | cons p rest ih =>
      rw [List.map_cons, List.nodup_cons] at hurls
      obtain ⟨hnotin, hrest⟩ := hurls
      by_cases hp : p.url = u
      · refine Or.inr ⟨p, by simp, hp, ?_⟩
        rw [List.filter_cons_of_pos (by simp [hp])]
        have hnil : rest.filter (fun p => p.url == u) = [] := by
          rw [List.filter_eq_nil_iff]
          intro a ha
          simp only [beq_iff_eq]
          intro hau
          exact hnotin (List.mem_map.mpr ⟨a, ha, by rw [hau, hp]⟩)
        rw [hnil]
      · rw [List.filter_cons_of_neg (by simp [hp])]
        rcases ih hrest with h0 | ⟨q, hq, hqu, hfil⟩
        · exact Or.inl h0
        · exact Or.inr ⟨q, by simp [hq], hqu, hfil⟩

/-- Claim C4, amended: the merged log has no duplicate videoURL within any entry,
provided the prior log already had none, no scraped listing repeats a
videoURL, and no two scraped programs share a URL. Without those provisos the
invariant fails (see the counterexample): the code never deduplicates within
a run's own scraped data. -/
theorem merge_nodup_amended (ok : VOD → Bool) (log newLog : Log)
    (programs : List VODStatus)
    (hlog : ∀ u, (vids log u).Nodup)
    (hprog : ∀ p ∈ programs, (p.episodes.map VOD.videoURL).Nodup)
    (hurls : (programs.map VODStatus.url).Nodup)
    (h : downloadVideosRun ok log programs = (newLog, true)) :
    ∀ u, (vids newLog u).Nodup := by
  intro u
  rw [downloadVideosRun_ok_targetRec ok log newLog programs h]
  unfold vids
  rw [logEpisodes_mergeLog, List.map_append, List.filter_map]
  have hpred : ((fun r => r.url == u) ∘ targetRec log) = fun p => p.url == u := rfl
  rw [hpred]
  rcases filter_url_eq_nil_or_singleton programs u hurls with hnil | ⟨q, hq, hqu, hfil⟩
  · rw [hnil]
    simpa using hlog u
  · rw [hfil]
    simp only [List.map_cons, List.map_nil, List.flatMap_cons, List.flatMap_nil,
      List.append_nil]
    have hmapmap : (targetRec log q).episodes.map Episode.videoURL =
        (dedupTargets (logEpisodes log q.url) q.episodes).map VOD.videoURL := by
      rw [targetRec, List.map_map]
      rfl
    rw [hmapmap, List.nodup_append]
    refine ⟨hlog u, ?_, ?_⟩
    · exact List.Nodup.sublist
        (List.Sublist.map VOD.videoURL (List.filter_sublist q.episodes))
        (hprog q hq)
    · intro a ha hmem
      rw [mem_vids_dedupTargets] at hmem
      obtain ⟨ep, _, _, _, hnot⟩ := hmem
      rw [hqu] at hnot
      exact hnot ha

/-- Witness for `merge_nodup_amended`: two distinct free episodes for one
program, empty prior log — the merged entry has no duplicate videoURL. -/
theorem merge_nodup_amended_witness :
    (vids [("u", sampleRecorded2)] "u").Nodup :=
  merge_nodup_amended (fun _ => true) [] [("u", sampleRecorded2)] [sampleProgram2]
    (fun u => by simp [vids, logEpisodes, lookupLog]) (by decide) (by decide)
    (by decide) "u"

/-! ### C10: the two historical variants of dedupe-download-merge -/

theorem lookupLog_updateLog_isSome (log : Log) (k u : String) (r : Recorded)
    (h : (lookupLog log u).isSome) : (lookupLog (updateLog log k r) u).isSome := by
  by_cases hk : k = u
  · subst hk
    rw [lookupLog_updateLog_self]
    rfl
  · rw [lookupLog_updateLog_ne log k u r hk]
    exact h

/-- When every merged program's URL already has an entry, the older merge loop
(the one without optional chaining) computes exactly the newer merge loop's
log. -/
theorem mergeLogOld_eq_mergeLog (recs : List Recorded) (log : Log)
    (h : ∀ r ∈ recs, (lookupLog log r.url).isSome) :
    mergeLogOld log recs = some (mergeLog log recs) := by
  induction recs generalizing log with
  | nil => rfl
  | cons p rest ih =>
      have hp := h p (by simp)
      cases hl : lookupLog log p.url with
      | none =>
          rw [hl] at hp
          simp at hp
      | some r =>
          have heps : logEpisodes log p.url = r.episodes := by
            rw [logEpisodes, hl]
          simp only [mergeLogOld, mergeLog, hl, heps]
          exact ih _ fun r' hr' =>
            lookupLog_updateLog_isSome log p.url r'.url _ (h r' (by simp [hr']))

/-- Counterexample to C10 as stated: for a program whose URL has no entry in
the prior log, the older variant throws (reading `.episodes` of `undefined`)
while the newer variant succeeds — they neither agree nor both fail. -/
theorem variants_differ :
    downloadVideosRunOld (fun _ => true) [] [sampleProgram] ≠
      downloadVideosRun (fun _ => true) [] [sampleProgram] := by
  decide

/-- Claim C10, amended: whenever every scraped program's URL already has an entry in
the prior log, the two variants compute the same updated log and agree on
success/failure; they differ exactly on programs absent from the prior log,
where the older variant fails. -/
theorem variants_agree (ok : VOD → Bool) (log : Log) (programs : List VODStatus)
    (h : ∀ p ∈ programs, (lookupLog log p.url).isSome) :
    downloadVideosRunOld ok log programs = downloadVideosRun ok log programs := by
  unfold downloadVideosRunOld downloadVideosRun
  cases hd : downloadAll ok (downloadTargets log programs) with
  | error e => rfl
  | ok recs =>
      have hrecs : ∀ r ∈ recs, (lookupLog log r.url).isSome := by
        intro r hr
        rw [downloadAll_ok ok _ recs hd] at hr
        obtain ⟨p, hp, rfl⟩ := List.mem_map.mp hr
        rw [downloadTargets] at hp
        obtain ⟨q, hq, rfl⟩ := List.mem_map.mp hp
        exact h q hq
      show (match mergeLogOld log recs with
        | none => (log, false)
        | some l => (l, true)) = (mergeLog log recs, true)
      rw [mergeLogOld_eq_mergeLog recs log hrecs]

/-- Witness for `variants_agree`: with `"u"` already present in the prior
log, both variants compute the same result. -/
theorem variants_agree_witness :
    downloadVideosRunOld (fun _ => true) sampleLog [sampleProgram] =
      downloadVideosRun (fun _ => true) sampleLog [sampleProgram] :=
  variants_agree (fun _ => true) sampleLog [sampleProgram] (by decide)
